import Mathlib

/-!
Shallow embedding of the RBAC resource-tree engine (src/rbac_resourcetree.mjs)
and verification of the spec's claims about it.

JavaScript conventions used in the embedding:
* a thrown `Error(msg)` becomes `Except.error msg`;
* a falsy string is exactly `""` (the only falsy string value);
* `typeof`-driven branching on constructor arguments is modelled by small
  sum types that distinguish exactly the shapes the source distinguishes;
* property access on a string primitive (e.g. `p.permission` where `p` is a
  string) yields `undefined`, and `undefined === undefined` is `true` — this
  matters for `addPermission` and is noted at its definition.
-/

namespace RBACTree

/-- An argument passed to the Target constructor: the source only inspects
`typeof arg !== 'string'`, so either a string or some non-string value. -/
inductive JsArg where
  | str (s : String)
  | nonString
deriving DecidableEq, Repr

/-- Whether the argument is a string (`typeof arg === 'string'`). -/
def JsArg.isStr : JsArg → Bool
  | .str _ => true
  | .nonString => false

/-- The string carried by a string argument (default for non-strings;
only used on arguments already known to be strings). -/
def JsArg.strD : JsArg → String
  | .str s => s
  | .nonString => ""

/-- JavaScript `Array.prototype.join(sep)`. -/
def joinSep (sep : String) : List String → String
  | [] => ""
  | [s] => s
  | s :: rest => s ++ sep ++ joinSep sep rest

/-- Target: a node in the resource hierarchy, identified by its ordered
path segments (`this.level`) and the derived canonical uri
(`this.uri = "target://" + this.level.join("/")`). -/
structure Target where
  level : List String
  uri : String
deriving DecidableEq, Repr

/-- The state stored by the Target constructor's success path:
segments taken verbatim, uri joined with "/" under the scheme. -/
def Target.ofSegments (segs : List String) : Target :=
  ⟨segs, "target://" ++ joinSep "/" segs⟩

/-- Target constructor `constructor(...argStrings)`: throws unless at least
one argument is given and every argument is a string; otherwise stores the
segment list verbatim and the joined uri. -/
def Target.make (argStrings : List JsArg) : Except String Target :=
  if argStrings.length = 0 then
    .error "Needs at least one argument"
  else if 0 < (argStrings.filter (fun a => !a.isStr)).length then
    .error "All arguments must be strings"
  else
    .ok (Target.ofSegments (argStrings.map JsArg.strD))

-- The static members of the Permission class.
namespace Permission

def CREATE : String := "CREATE"

def READ : String := "READ"

def UPDATE : String := "UPDATE"

def DELETE : String := "DELETE"

def SHARE : String := "SHARE"

def ALL : String := "ALL"

end Permission

/-- The six-way permission-validity test the source repeats at each entry
point (`permission !== Permission.CREATE && ... && permission !== Permission.ALL`
guarding a throw): true iff the value is one of the six enumerated verbs. -/
def validPermission (p : String) : Bool :=
  p == Permission.CREATE || p == Permission.READ || p == Permission.UPDATE ||
  p == Permission.DELETE || p == Permission.SHARE || p == Permission.ALL

/-- Role: identifier, name, description, owned Targets and granted permission
strings. The source constructor additionally stores the raw `target` argument
(`this.target`), which no operation ever reads; it is omitted here. -/
structure Role where
  roleId : String
  roleName : String
  roleDescription : String
  targets : List Target
  permissions : List String
deriving DecidableEq, Repr

/-- An element of an array passed as the Role constructor's `target` argument:
the source distinguishes strings, Target instances and everything else. -/
inductive JsTargetElem where
  | str (s : String)
  | tgt (t : Target)
  | other
deriving DecidableEq, Repr

/-- Whether the element is a string. -/
def JsTargetElem.isStr : JsTargetElem → Bool
  | .str _ => true
  | _ => false

/-- Whether the element is a Target instance. -/
def JsTargetElem.isTgt : JsTargetElem → Bool
  | .tgt _ => true
  | _ => false

/-- The string carried by a string element (defaulted; used only on elements
already known to be strings). -/
def JsTargetElem.strD : JsTargetElem → String
  | .str s => s
  | _ => ""

/-- The Target carried by a Target element (defaulted; used only on elements
already known to be Target instances). -/
def JsTargetElem.tgtD : JsTargetElem → Target
  | .tgt t => t
  | _ => ⟨[], ""⟩

/-- The Role constructor's `target` argument: the source branches on
falsiness, `typeof target === 'string'`, `target instanceof Target`,
`Array.isArray(target)` with element tests, and a catch-all. `undef` stands
for any falsy non-string value (undefined, null, 0, ...); an empty JS string
is `.str ""` (falsy); an array — empty or not — is truthy. -/
inductive JsTargetArg where
  | undef
  | str (s : String)
  | tgt (t : Target)
  | arr (elems : List JsTargetElem)
  | other
deriving DecidableEq, Repr

/-- `new Target(...t.split('/'))` applied to a string: `String.splitOn` has
the same semantics as JS `String.prototype.split` with a one-character
separator (it never returns an empty list, so the nested Target constructor
cannot throw, but the Except is threaded faithfully). -/
def targetFromDelimited (s : String) : Except String Target :=
  Target.make ((s.splitOn "/").map JsArg.str)

/-- JS `Array.prototype.map` with a callback that may throw: the first
thrown error propagates, otherwise the list of results is produced. -/
def mapExcept (f : α → Except String β) : List α → Except String (List β)
  | [] => .ok []
  | a :: as =>
    match f a with
    | .error e => .error e
    | .ok b =>
      match mapExcept f as with
      | .error e => .error e
      | .ok bs => .ok (b :: bs)

/-- Role constructor: validates roleId/roleName truthiness, then dispatches
on the shape of `target` in source order — falsy, string, Target instance,
array of strings, array of Targets, otherwise error. Note `[].every(...)`
is vacuously true in JS, so an empty array takes the array-of-strings branch
and yields zero owned Targets. -/
def Role.make (roleId roleName roleDescription : String) (target : JsTargetArg)
    (permissions : List String) : Except String Role :=
  if roleId = "" then .error "roleId must be provided"
  else if roleName = "" then .error "roleName must be provided"
  else
    match target with
    | .undef => .error "target must be provided"
    | .str s =>
      if s = "" then .error "target must be provided"
      else
        (targetFromDelimited s).map fun t =>
          ⟨roleId, roleName, roleDescription, [t], permissions⟩
    | .tgt t => .ok ⟨roleId, roleName, roleDescription, [t], permissions⟩
    | .arr elems =>
      if elems.all JsTargetElem.isStr then
        (mapExcept (fun e => targetFromDelimited e.strD) elems).map fun ts =>
          ⟨roleId, roleName, roleDescription, ts, permissions⟩
      else if elems.all JsTargetElem.isTgt then
        .ok ⟨roleId, roleName, roleDescription, elems.map JsTargetElem.tgtD,
          permissions⟩
      else
        .error "Invalid target. Must be a string, Target instance or array of strings/Target instances"
    | .other =>
      .error "Invalid target. Must be a string, Target instance or array of strings/Target instances"

/-- The value of a JavaScript expression `a && b` where `a` is the result of
`Array.prototype.find` over Targets and `b` the result of `find` over
permission strings: `undefined`, a string, or (for contrast with boolean
-returning code paths) a boolean literal. -/
inductive JsResult where
  | undef
  | str (s : String)
  | bool (b : Bool)
deriving DecidableEq, Repr

/-- JavaScript truthiness of such a value: `undefined` is falsy, a string is
truthy iff non-empty, a boolean is itself. -/
def JsResult.truthy : JsResult → Bool
  | .undef => false
  | .str s => s != ""
  | .bool b => b

/-- The containment test the source applies between a role's owned Target
`rt` and the requested `target`: `target.uri.indexOf(rt.uri) === 0`, i.e.
`rt.uri` is a raw string prefix of `target.uri`. -/
def uriPrefixContains (rt target : Target) : Bool :=
  rt.uri.toList.isPrefixOf target.uri.toList

/-- `Role.prototype.authorize(permission, target)`: validates `target`
(guaranteed by the embedding's types) and `permission` (falsy check, then the
six-way enumeration check), then evaluates
`this.targets.find(rt => target.uri.indexOf(rt.uri)===0) &&
 this.permissions.find(p => p === permission || p === Permission.ALL)`.
The returned JS value is the first `find`'s result when falsy (i.e.
`undefined`), otherwise the second `find`'s result (`undefined` or the found
permission string) — never a boolean literal. -/
def Role.authorizeJs (role : Role) (permission : String) (target : Target) :
    Except String JsResult :=
  if permission = "" then
    .error "permission must be provided"
  else if !validPermission permission then
    .error "Invalid permission. Must be one of CREATE, READ, UPDATE, DELETE, SHARE, ALL"
  else
    match role.targets.find? (fun rt => uriPrefixContains rt target) with
    | none => .ok .undef
    | some _ =>
      match role.permissions.find? (fun p => p == permission || p == Permission.ALL) with
      | none => .ok .undef
      | some s => .ok (.str s)

/-- Truthiness of `role.authorize(permission, target)` as consumed by
`if (role.authorize(permission, target))` in `authorizeUser` (an error
never reaches this conversion there, because `authorizeUser` validates the
permission before the loop). -/
def roleAuthBool (role : Role) (permission : String) (target : Target) : Bool :=
  match role.authorizeJs permission target with
  | .ok r => r.truthy
  | .error _ => false

/-- `Role.prototype.addPermission(permission)`: falsy check, six-way
enumeration check, then the duplicate guard
`this.permissions.find(p => p.permission === permission.permission &&
p.targetType === permission.targetType)`. Both `p` and `permission` are
string primitives, so each property access yields `undefined` and each
`===` comparison is `undefined === undefined`, i.e. `true`: the predicate
holds for every element and `find` returns the first element of the list
(or `undefined` when the list is empty). The guard throws iff that result
is truthy (a non-empty string); otherwise the permission is pushed. -/
def Role.addPermission (role : Role) (permission : String) :
    Except String Role :=
  if permission = "" then
    .error "permission is null or undefined"
  else if !validPermission permission then
    .error "Invalid permission. Must be one of CREATE, READ, UPDATE, DELETE, SHARE, ALL"
  else
    match role.permissions.find? (fun _ => true) with
    | some fnd =>
      if fnd != "" then .error "permission already exists in role"
      else .ok ⟨role.roleId, role.roleName, role.roleDescription, role.targets,
        role.permissions ++ [permission]⟩
    | none => .ok ⟨role.roleId, role.roleName, role.roleDescription,
        role.targets, role.permissions ++ [permission]⟩

/-- `Role.prototype.removePermission(permission)`:
`this.permissions = this.permissions.filter(p => {p.permission !== permission.permission || p.targetType !== permission.targetType});`.
The arrow function has a block body with no `return` statement, so it
evaluates the comparison, discards it, and returns `undefined` — which is
falsy for every element, so `filter` keeps nothing. -/
def Role.removePermission (role : Role) (_permission : String) : Role :=
  ⟨role.roleId, role.roleName, role.roleDescription, role.targets,
    role.permissions.filter (fun _ => false)⟩

/-- User: identifier, display name and the list of Role references. The
constructor's checks (truthy userId, roles an array of Role instances) are
guaranteed by the embedding's types. -/
structure User where
  userId : String
  userName : String
  roles : List Role
deriving Repr

/-- The `for (let role of user.roles) { if (role.authorize(permission, target))
return true; } return false;` loop of `RBACUtil.authorizeUser`, with any
error thrown by `role.authorize` propagating out. -/
def authLoop (roles : List Role) (permission : String) (target : Target) :
    Except String Bool :=
  match roles with
  | [] => .ok false
  | role :: rest => do
    let r ← role.authorizeJs permission target
    if r.truthy then .ok true else authLoop rest permission target

/-- `RBACUtil.authorizeUser(user, permission, target)`: validates `user` and
`target` (guaranteed by the embedding's types), validates `permission`
(`!permission || not one of the six verbs` throws), then runs the role loop. -/
def RBACUtil.authorizeUser (user : User) (permission : String)
    (target : Target) : Except String Bool :=
  if permission == "" || !validPermission permission then
    .error "Invalid permission. Must be one of CREATE, READ, UPDATE, DELETE, SHARE, ALL"
  else
    authLoop user.roles permission target

/-- Modelled from the spec for comparison with the code's containment test:
`containsOrEquals` at a segment boundary — S's canonical address is a string
prefix of T's, and the next character of T's address after the shared prefix,
if any, is the segment separator. -/
def segBoundaryContains (s t : Target) : Bool :=
  s.uri.toList.isPrefixOf t.uri.toList &&
    ((t.uri.toList.drop s.uri.toList.length).headD '/' == '/')

/-- A segment that does not contain the separator character. -/
def sepFree (s : String) : Prop :=
  '/' ∉ s.data

instance (s : String) : Decidable (sepFree s) := by
  unfold sepFree
  infer_instance

/-- The JS value computed by `Role.prototype.authorize` once its input
validation has passed, as a standalone function: the scope `find` result when
falsy (`undefined`), otherwise the permission `find` result. -/
def jsAuthResult (role : Role) (permission : String) (target : Target) :
    JsResult :=
  match role.targets.find? (fun rt => uriPrefixContains rt target) with
  | none => JsResult.undef
  | some _ =>
    match role.permissions.find? (fun p => p == permission || p == Permission.ALL) with
    | none => JsResult.undef
    | some s => JsResult.str s

-- Concrete fixtures used by witnesses and counterexamples.

def tgtJob1 : Target := Target.ofSegments ["job1"]

def tgtJob12 : Target := Target.ofSegments ["job12"]

def tgtJob1x : Target := Target.ofSegments ["job1", "x"]

def roleSample : Role :=
  ⟨"r1", "Reader", "sample reader role", [tgtJob1], [Permission.READ]⟩

def userSample : User := ⟨"u1", "User One", [roleSample]⟩

def userEmpty : User := ⟨"u0", "User Zero", []⟩

-- ## Helper lemmas

theorem ne_empty_of_validPermission {p : String} (h : validPermission p = true) :
    p ≠ "" := by
  intro he
  rw [he] at h
  exact absurd h (by decide)

theorem authorizeJs_of_valid (role : Role) (perm : String) (target : Target)
    (hv : validPermission perm = true) :
    role.authorizeJs perm target = .ok (jsAuthResult role perm target) := by
  have hne : ¬ perm = "" := ne_empty_of_validPermission hv
  unfold Role.authorizeJs jsAuthResult
  rw [if_neg hne, hv]
  show (match role.targets.find? (fun rt => uriPrefixContains rt target) with
    | none => Except.ok JsResult.undef
    | some _ =>
      match role.permissions.find? (fun p => p == perm || p == Permission.ALL) with
      | none => Except.ok JsResult.undef
      | some s => Except.ok (JsResult.str s)) = _
  cases role.targets.find? (fun rt => uriPrefixContains rt target) with
  | none => rfl
  | some _ =>
    cases role.permissions.find? (fun p => p == perm || p == Permission.ALL) with
    | none => rfl
    | some s => rfl

theorem found_perm_ne_empty {s perm : String} (hv : validPermission perm = true)
    (hpred : (s == perm || s == Permission.ALL) = true) : s ≠ "" := by
  intro he
  subst he
  have hd : "" = perm ∨ "" = Permission.ALL := by simpa using hpred
  rcases hd with h | h
  · exact ne_empty_of_validPermission hv h.symm
  · exact absurd h (by decide)

theorem jsAuthResult_truthy (role : Role) (perm : String) (target : Target)
    (hv : validPermission perm = true) :
    (jsAuthResult role perm target).truthy =
      (role.targets.any (fun rt => uriPrefixContains rt target) &&
       role.permissions.any (fun p => p == perm || p == Permission.ALL)) := by
  unfold jsAuthResult
  cases hf : role.targets.find? (fun rt => uriPrefixContains rt target) with
  | none =>
    have h1 : role.targets.any (fun rt => uriPrefixContains rt target) = false :=
      List.any_eq_false.mpr (List.find?_eq_none.mp hf)
    simp [h1, JsResult.truthy]
  | some rt =>
    have hm := List.mem_of_find?_eq_some hf
    have hp := List.find?_some hf
    have h1 : role.targets.any (fun rt => uriPrefixContains rt target) = true :=
      List.any_eq_true.mpr ⟨rt, hm, hp⟩
    cases hg : role.permissions.find? (fun p => p == perm || p == Permission.ALL) with
    | none =>
      have h2 : role.permissions.any (fun p => p == perm || p == Permission.ALL) = false :=
        List.any_eq_false.mpr (List.find?_eq_none.mp hg)
      simp [h1, h2, JsResult.truthy]
    | some s =>
      have hm2 := List.mem_of_find?_eq_some hg
      have hpred := List.find?_some hg
      have h2 : role.permissions.any (fun p => p == perm || p == Permission.ALL) = true :=
        List.any_eq_true.mpr ⟨s, hm2, hpred⟩
      simp [h1, h2, JsResult.truthy, bne_iff_ne.mpr (found_perm_ne_empty hv hpred)]

theorem roleAuthBool_eq (role : Role) (perm : String) (target : Target)
    (hv : validPermission perm = true) :
    roleAuthBool role perm target = (jsAuthResult role perm target).truthy := by
  unfold roleAuthBool
  rw [authorizeJs_of_valid role perm target hv]

theorem authLoop_eq_any (perm : String) (target : Target)
    (hv : validPermission perm = true) :
    ∀ roles : List Role,
      authLoop roles perm target =
        .ok (roles.any (fun role => roleAuthBool role perm target)) := by
  intro roles
  induction roles with
  | nil => rfl
  | cons role rest ih =>
    show (do
      let r ← role.authorizeJs perm target
      if r.truthy then Except.ok true else authLoop rest perm target) = _
    rw [authorizeJs_of_valid role perm target hv]
    show (if (jsAuthResult role perm target).truthy then Except.ok true
          else authLoop rest perm target) = _
    rw [List.any_cons, ← roleAuthBool_eq role perm target hv, ih]
    cases h : roleAuthBool role perm target <;> simp [h]

/-- Claim C2 refutation at the failing input: reading contains-or-equals as
the spec's segment-boundary relation, the claimed iff fails on the code — a
role owning only the Scope ["job1"] with READ granted gets a truthy result
from authorize(READ, Scope(["job12"])) even though its action conjunct is the
only one that holds: no owned Scope contains-or-equals that target, because
the code's scope test is a raw uri prefix test instead of the claimed
containment relation. -/
theorem authorize_truthy_without_containing_scope :
    roleSample.permissions.any
      (fun p => p == Permission.READ || p == Permission.ALL) = true ∧
    roleSample.targets.any (fun rt => segBoundaryContains rt tgtJob12) = false ∧
    roleSample.authorizeJs Permission.READ tgtJob12 =
      Except.ok (JsResult.str Permission.READ) ∧
    (JsResult.str Permission.READ).truthy = true :=
  ⟨by decide, by decide, rfl, by decide⟩

/-- Claim C3: for every User, valid permission and Target, authorizeUser
returns ok of the logical OR of the roles' authorize truthiness, taken over
the user's roles in stored order (authLoop is the short-circuiting loop and
List.any its boolean value); with an empty role list the result is ok
false. -/
theorem authorizeUser_eq_any_role (user : User) (perm : String) (target : Target)
    (hv : validPermission perm = true) :
    RBACUtil.authorizeUser user perm target =
      Except.ok (user.roles.any (fun role => roleAuthBool role perm target)) ∧
    (user.roles = [] → RBACUtil.authorizeUser user perm target = Except.ok false) := by
  have hcond : (perm == "" || !validPermission perm) = false := by
    rw [hv]
    simp [beq_eq_false_iff_ne.mpr (ne_empty_of_validPermission hv)]
  constructor
  · unfold RBACUtil.authorizeUser
    rw [hcond]
    simp only [Bool.false_eq_true, if_false]
    exact authLoop_eq_any perm target hv user.roles
  · intro hempty
    unfold RBACUtil.authorizeUser
    rw [hcond, hempty]
    simp [authLoop]

theorem authorizeUser_eq_any_role_witness :
    validPermission Permission.READ = true ∧
    (RBACUtil.authorizeUser userEmpty Permission.READ tgtJob1 =
      Except.ok (userEmpty.roles.any (fun role => roleAuthBool role Permission.READ tgtJob1)) ∧
    (userEmpty.roles = [] → RBACUtil.authorizeUser userEmpty Permission.READ tgtJob1 = Except.ok false)) :=
  ⟨by decide, authorizeUser_eq_any_role userEmpty Permission.READ tgtJob1 (by decide)⟩

/-- Claim C8: for every well-formed User and Target (well-formedness is
carried by the embedding's types) and every valid permission, authorizeUser
never raises an error: it always returns ok of a boolean, so denial is the
normal false return, never an exception. -/
theorem authorizeUser_ok_of_valid (user : User) (perm : String) (target : Target)
    (hv : validPermission perm = true) :
    ∃ b, RBACUtil.authorizeUser user perm target = Except.ok b := by
  refine ⟨user.roles.any (fun role => roleAuthBool role perm target), ?_⟩
  have hcond : (perm == "" || !validPermission perm) = false := by
    rw [hv]
    simp [beq_eq_false_iff_ne.mpr (ne_empty_of_validPermission hv)]
  unfold RBACUtil.authorizeUser
  rw [hcond]
  simp only [Bool.false_eq_true, if_false]
  exact authLoop_eq_any perm target hv user.roles

theorem authorizeUser_ok_of_valid_witness :
    validPermission Permission.DELETE = true ∧
    ∃ b, RBACUtil.authorizeUser userSample Permission.DELETE tgtJob1x = Except.ok b :=
  ⟨by decide, authorizeUser_ok_of_valid userSample Permission.DELETE tgtJob1x (by decide)⟩

/-- Claim C10: Role.authorize never returns the boolean literals true/false:
on valid input it returns ok of a JS value that is never a boolean; when both
the scope test and the action test succeed that value is the matched element
produced by find — a permission string, truthy — and when either test fails
it is undefined (falsy). -/
theorem authorize_returns_find_result_not_bool (role : Role) (perm : String)
    (target : Target) (hv : validPermission perm = true) :
    ∃ r, role.authorizeJs perm target = Except.ok r ∧
      (∀ b, r ≠ JsResult.bool b) ∧
      ((role.targets.any (fun rt => uriPrefixContains rt target) &&
        role.permissions.any (fun p => p == perm || p == Permission.ALL)) = true →
        ∃ s, r = JsResult.str s ∧ s ∈ role.permissions ∧ r.truthy = true) ∧
      ((role.targets.any (fun rt => uriPrefixContains rt target) &&
        role.permissions.any (fun p => p == perm || p == Permission.ALL)) = false →
        r = JsResult.undef) := by
  refine ⟨jsAuthResult role perm target, authorizeJs_of_valid role perm target hv, ?_, ?_, ?_⟩
  · unfold jsAuthResult
    cases role.targets.find? (fun rt => uriPrefixContains rt target) with
    | none => intro b; simp
    | some _ =>
      cases role.permissions.find? (fun p => p == perm || p == Permission.ALL) with
      | none => intro b; simp
      | some s => intro b; simp
  · intro hc
    have ht := jsAuthResult_truthy role perm target hv
    rw [hc] at ht
    unfold jsAuthResult at ht ⊢
    cases hf : role.targets.find? (fun rt => uriPrefixContains rt target) with
    | none => rw [hf] at ht; exact absurd ht (by simp [JsResult.truthy])
    | some rt =>
      rw [hf] at ht
      cases hg : role.permissions.find? (fun p => p == perm || p == Permission.ALL) with
      | none => rw [hg] at ht; exact absurd ht (by simp [JsResult.truthy])
      | some s =>
        rw [hg] at ht
        exact ⟨s, rfl, List.mem_of_find?_eq_some hg, ht⟩
  · intro hc
    have ht := jsAuthResult_truthy role perm target hv
    rw [hc] at ht
    unfold jsAuthResult at ht ⊢
    cases hf : role.targets.find? (fun rt => uriPrefixContains rt target) with
    | none => rfl
    | some rt =>
      rw [hf] at ht
      cases hg : role.permissions.find? (fun p => p == perm || p == Permission.ALL) with
      | none => rfl
      | some s =>
        rw [hg] at ht
        simp [JsResult.truthy] at ht
        have hpred := List.find?_some hg
        exact absurd ht (found_perm_ne_empty hv hpred)

theorem authorize_returns_find_result_not_bool_witness :
    validPermission Permission.READ = true ∧
    ∃ r, roleSample.authorizeJs Permission.READ tgtJob12 = Except.ok r ∧
      (∀ b, r ≠ JsResult.bool b) ∧
      ((roleSample.targets.any (fun rt => uriPrefixContains rt tgtJob12) &&
        roleSample.permissions.any (fun p => p == Permission.READ || p == Permission.ALL)) = true →
        ∃ s, r = JsResult.str s ∧ s ∈ roleSample.permissions ∧ r.truthy = true) ∧
      ((roleSample.targets.any (fun rt => uriPrefixContains rt tgtJob12) &&
        roleSample.permissions.any (fun p => p == Permission.READ || p == Permission.ALL)) = false →
        r = JsResult.undef) :=
  ⟨by decide, authorize_returns_find_result_not_bool roleSample Permission.READ tgtJob12 (by decide)⟩

/-- Claim C1 refutation at the failing input: the code's containment test is
a raw uri prefix test, so the Scope with segments ["job1"] is treated as
containing the Scope ["job12"], which the claimed segment-boundary relation
rejects; consequently a role owning only ["job1"] truthy-authorizes a granted
action on ["job12"]. The ["job1"] / ["job1","x"] half of the claim does hold
under both relations. -/
theorem containment_raw_prefix_violates_boundary :
    Target.make [JsArg.str "job1"] = Except.ok tgtJob1 ∧
    Target.make [JsArg.str "job12"] = Except.ok tgtJob12 ∧
    Target.make [JsArg.str "job1", JsArg.str "x"] = Except.ok tgtJob1x ∧
    uriPrefixContains tgtJob1 tgtJob12 = true ∧
    segBoundaryContains tgtJob1 tgtJob12 = false ∧
    uriPrefixContains tgtJob1 tgtJob1x = true ∧
    segBoundaryContains tgtJob1 tgtJob1x = true ∧
    roleAuthBool roleSample Permission.READ tgtJob12 = true :=
  ⟨rfl, rfl, rfl, by decide, by decide, by decide, by decide, by decide⟩

/-- Claim C4 refutation at the failing input: CREATE is absent from the
granted set [READ], yet addPermission fails with the duplicate error, because
its duplicate predicate compares properties that are undefined on string
permissions and therefore matches every element of a non-empty set; the same
call on an empty granted set succeeds and appends. -/
theorem addPermission_duplicate_error_without_duplicate :
    Permission.CREATE ∉ roleSample.permissions ∧
    roleSample.addPermission Permission.CREATE =
      Except.error "permission already exists in role" ∧
    (Role.addPermission ⟨"r2", "n2", "d2", [tgtJob1], []⟩ Permission.CREATE).map
      Role.permissions = Except.ok [Permission.CREATE] :=
  ⟨by decide, rfl, rfl⟩

/-- Claim C5 refutation at the failing input: removing the absent action
CREATE from a role whose granted set is [READ] is not a no-op — it empties
the entire granted set, because the filter callback's block body never
returns a value. -/
theorem removePermission_absent_not_noop :
    Permission.CREATE ∉ roleSample.permissions ∧
    roleSample.permissions = [Permission.READ] ∧
    (roleSample.removePermission Permission.CREATE).permissions = [] :=
  ⟨by decide, rfl, rfl⟩

-- ## Except and list helpers

theorem except_map_ok_iff {α β : Type} {f : α → β} {e : Except String α} {b : β} :
    e.map f = Except.ok b ↔ ∃ a, e = Except.ok a ∧ f a = b := by
  cases e <;> simp [Except.map]

theorem mapExcept_length {α β : Type} (f : α → Except String β) :
    ∀ (xs : List α) (ys : List β), mapExcept f xs = Except.ok ys →
      ys.length = xs.length := by
  intro xs
  induction xs with
  | nil =>
    intro ys h
    simp [mapExcept] at h
    simp [h]
  | cons a as ih =>
    intro ys h
    unfold mapExcept at h
    cases hfa : f a with
    | error e => rw [hfa] at h; exact Except.noConfusion h
    | ok b =>
      rw [hfa] at h
      cases hrest : mapExcept f as with
      | error e => rw [hrest] at h; exact Except.noConfusion h
      | ok bs =>
        rw [hrest] at h
        injection h with h
        rw [← h]
        simp [ih bs hrest]

-- ## Target.make support

theorem targetMake_ok_shape (args : List JsArg) (t : Target)
    (h : Target.make args = Except.ok t) :
    t.uri = "target://" ++ joinSep "/" t.level ∧ t.level ≠ [] := by
  unfold Target.make at h
  by_cases h0 : args.length = 0
  · rw [if_pos h0] at h; exact Except.noConfusion h
  rw [if_neg h0] at h
  by_cases hf : 0 < (args.filter (fun a => !a.isStr)).length
  · rw [if_pos hf] at h; exact Except.noConfusion h
  rw [if_neg hf] at h
  injection h with h
  subst h
  refine ⟨rfl, ?_⟩
  show args.map JsArg.strD ≠ []
  intro hnil
  exact h0 (by rw [List.map_eq_nil_iff.mp hnil]; rfl)

-- ## String/char-list support for C7

theorem string_data_append (s t : String) : (s ++ t).data = s.data ++ t.data := by
  cases s; cases t; rfl

theorem sep_split_unique {xs ys : List Char} : ∀ {as bs : List Char},
    '/' ∉ as → '/' ∉ bs → as ++ '/' :: xs = bs ++ '/' :: ys →
    as = bs ∧ xs = ys := by
  intro as
  induction as with
  | nil =>
    intro bs ha hb h
    cases bs with
    | nil => simpa using h
    | cons b bs' =>
      simp only [List.nil_append, List.cons_append, List.cons.injEq] at h
      exact absurd (h.1 ▸ List.mem_cons_self b bs') hb
  | cons a as' ih =>
    intro bs ha hb h
    cases bs with
    | nil =>
      simp only [List.nil_append, List.cons_append, List.cons.injEq] at h
      exact absurd (h.1 ▸ List.mem_cons_self a as') ha
    | cons b bs' =>
      simp only [List.cons_append, List.cons.injEq] at h
      obtain ⟨h1, h2⟩ := h
      have ha' : '/' ∉ as' := fun hm => ha (List.mem_cons_of_mem _ hm)
      have hb' : '/' ∉ bs' := fun hm => hb (List.mem_cons_of_mem _ hm)
      obtain ⟨e1, e2⟩ := ih ha' hb' h2
      exact ⟨by rw [h1, e1], e2⟩

theorem joinSep_cons_data (a : String) (r : List String) (hr : r ≠ []) :
    (joinSep "/" (a :: r)).data = a.data ++ '/' :: (joinSep "/" r).data := by
  cases r with
  | nil => exact absurd rfl hr
  | cons b bs =>
    show (a ++ "/" ++ joinSep "/" (b :: bs)).data = _
    rw [string_data_append, string_data_append]
    simp

theorem joinSep_sepFree_inj : ∀ (l₁ l₂ : List String),
    (∀ s ∈ l₁, sepFree s) → (∀ s ∈ l₂, sepFree s) →
    l₁ ≠ [] → l₂ ≠ [] →
    joinSep "/" l₁ = joinSep "/" l₂ → l₁ = l₂ := by
  intro l₁
  induction l₁ with
  | nil => intro l₂ _ _ hn1 _ _; exact absurd rfl hn1
  | cons a as ih =>
    intro l₂ h1 h2 hn1 hn2 heq
    cases l₂ with
    | nil => exact absurd rfl hn2
    | cons b bs =>
      cases as with
      | nil =>
        cases bs with
        | nil =>
          show [a] = [b]
          have : a = b := heq
          rw [this]
        | cons b' bs' =>
          exfalso
          have hd : a.data = b.data ++ '/' :: (joinSep "/" (b' :: bs')).data := by
            have := congrArg String.data heq
            rwa [joinSep_cons_data b (b' :: bs') (by simp)] at this
          have : '/' ∈ a.data := by
            rw [hd]
            exact List.mem_append_right _ (List.mem_cons_self _ _)
          exact h1 a (List.mem_cons_self a []) this
      | cons a' as' =>
        cases bs with
        | nil =>
          exfalso
          have hd : b.data = a.data ++ '/' :: (joinSep "/" (a' :: as')).data := by
            have := congrArg String.data heq.symm
            rwa [joinSep_cons_data a (a' :: as') (by simp)] at this
          have : '/' ∈ b.data := by
            rw [hd]
            exact List.mem_append_right _ (List.mem_cons_self _ _)
          exact h2 b (List.mem_cons_self b []) this
        | cons b' bs' =>
          have hd := congrArg String.data heq
          rw [joinSep_cons_data a (a' :: as') (by simp),
            joinSep_cons_data b (b' :: bs') (by simp)] at hd
          obtain ⟨e1, e2⟩ := sep_split_unique (h1 a (List.mem_cons_self a _))
            (h2 b (List.mem_cons_self b _)) hd
          have hab : a = b := String.ext e1
          have htail : joinSep "/" (a' :: as') = joinSep "/" (b' :: bs') :=
            String.ext e2
          have hrec := ih (b' :: bs')
            (fun s hs => h1 s (List.mem_cons_of_mem _ hs))
            (fun s hs => h2 s (List.mem_cons_of_mem _ hs))
            (by simp) (by simp) htail
          rw [hab, hrec]

/-- Claim C7 counterexample: the Target constructor accepts a segment that
contains the separator, so the distinct accepted segment sequences ["a/b"]
and ["a","b"] canonicalize to the same address — canonicalization is not
injective on all successfully constructed Scopes. -/
theorem uri_collision_separator_segment :
    Target.make [JsArg.str "a/b"] = Except.ok (Target.ofSegments ["a/b"]) ∧
    Target.make [JsArg.str "a", JsArg.str "b"] =
      Except.ok (Target.ofSegments ["a", "b"]) ∧
    (Target.ofSegments ["a/b"]).uri = (Target.ofSegments ["a", "b"]).uri ∧
    (Target.ofSegments ["a/b"]).level ≠ (Target.ofSegments ["a", "b"]).level := by
  refine ⟨rfl, rfl, by decide, by decide⟩

/-- Claim C7 amended: for successfully constructed Scopes, the canonical
address is a pure, deterministic function of the segment sequence, and it is
injective on Scopes whose segments do not contain the separator; injectivity
on all constructor-accepted sequences fails (see the counterexample). -/
theorem targetMake_uri_deterministic_and_injective_on_sepFree
    (args1 args2 : List JsArg) (t1 t2 : Target)
    (h1 : Target.make args1 = Except.ok t1) (h2 : Target.make args2 = Except.ok t2)
    (hf1 : ∀ s ∈ t1.level, sepFree s) (hf2 : ∀ s ∈ t2.level, sepFree s) :
    (t1.level = t2.level → t1.uri = t2.uri) ∧
    (t1.uri = t2.uri → t1.level = t2.level) := by
  obtain ⟨hu1, hn1⟩ := targetMake_ok_shape args1 t1 h1
  obtain ⟨hu2, hn2⟩ := targetMake_ok_shape args2 t2 h2
  constructor
  · intro hl
    rw [hu1, hu2, hl]
  · intro hu
    rw [hu1, hu2] at hu
    have hd : ("target://" ++ joinSep "/" t1.level).data =
        ("target://" ++ joinSep "/" t2.level).data := by rw [hu]
    rw [string_data_append, string_data_append] at hd
    have hj : joinSep "/" t1.level = joinSep "/" t2.level :=
      String.ext (List.append_cancel_left hd)
    exact joinSep_sepFree_inj t1.level t2.level hf1 hf2 hn1 hn2 hj

theorem targetMake_uri_witness :
    Target.make [JsArg.str "a"] = Except.ok (Target.ofSegments ["a"]) ∧
    ((Target.ofSegments ["a"]).level = (Target.ofSegments ["a"]).level →
      (Target.ofSegments ["a"]).uri = (Target.ofSegments ["a"]).uri) ∧
    ((Target.ofSegments ["a"]).uri = (Target.ofSegments ["a"]).uri →
      (Target.ofSegments ["a"]).level = (Target.ofSegments ["a"]).level) :=
  ⟨rfl, targetMake_uri_deterministic_and_injective_on_sepFree
    [JsArg.str "a"] [JsArg.str "a"] (Target.ofSegments ["a"]) (Target.ofSegments ["a"])
    rfl rfl (by decide) (by decide)⟩

/-- Claim C6 counterexample: constructing a Role with an empty array as the
target argument succeeds — `[].every(...)` is vacuously true, so the
array-of-strings branch maps it to zero owned Targets — refuting the claim
that every argument combination denoting zero scopes is rejected. -/
theorem roleMake_empty_array_zero_scopes :
    (Role.make "r1" "n1" "d" (JsTargetArg.arr []) []).map Role.targets =
      Except.ok [] := rfl

/-- Claim C6 amended: Role construction rejects falsy targets and invalid
target shapes, and for every target argument other than the empty array a
successfully constructed Role owns at least one Target; the empty array is
the sole exception (see the counterexample). -/
theorem roleMake_nonempty_target_yields_scope
    (roleId roleName roleDescription : String) (target : JsTargetArg)
    (permissions : List String) (role : Role)
    (hok : Role.make roleId roleName roleDescription target permissions =
      Except.ok role)
    (hne : target ≠ JsTargetArg.arr []) :
    role.targets ≠ [] := by
  cases target with
  | undef =>
    simp only [Role.make] at hok
    split at hok
    · exact Except.noConfusion hok
    split at hok <;> exact Except.noConfusion hok
  | str s =>
    simp only [Role.make] at hok
    split at hok
    · exact Except.noConfusion hok
    split at hok
    · exact Except.noConfusion hok
    split at hok
    · exact Except.noConfusion hok
    obtain ⟨t, _, hroleEq⟩ := except_map_ok_iff.mp hok
    rw [← hroleEq]
    simp
  | tgt t =>
    simp only [Role.make] at hok
    split at hok
    · exact Except.noConfusion hok
    split at hok
    · exact Except.noConfusion hok
    injection hok with hok
    rw [← hok]
    simp
  | arr elems =>
    simp only [Role.make] at hok
    split at hok
    · exact Except.noConfusion hok
    split at hok
    · exact Except.noConfusion hok
    split at hok
    · obtain ⟨ts, hts, hroleEq⟩ := except_map_ok_iff.mp hok
      rw [← hroleEq]
      show ts ≠ []
      have hlen := mapExcept_length _ _ _ hts
      cases elems with
      | nil => exact absurd rfl hne
      | cons e es =>
        intro hnil
        rw [hnil] at hlen
        simp at hlen
    split at hok
    · injection hok with hok
      rw [← hok]
      cases elems with
      | nil => exact absurd rfl hne
      | cons e es => simp
    · exact Except.noConfusion hok
  | other =>
    simp only [Role.make] at hok
    split at hok
    · exact Except.noConfusion hok
    split at hok <;> exact Except.noConfusion hok

theorem roleMake_nonempty_target_yields_scope_witness :
    Role.make "r" "n" "d" (JsTargetArg.tgt tgtJob1) [] =
      Except.ok ⟨"r", "n", "d", [tgtJob1], []⟩ ∧
    JsTargetArg.tgt tgtJob1 ≠ JsTargetArg.arr [] ∧
    (⟨"r", "n", "d", [tgtJob1], []⟩ : Role).targets ≠ [] :=
  ⟨rfl, by decide, roleMake_nonempty_target_yields_scope "r" "n" "d"
    (JsTargetArg.tgt tgtJob1) [] ⟨"r", "n", "d", [tgtJob1], []⟩ rfl (by decide)⟩

/-- Claim C9: the Target constructor succeeds iff it is given at least one
argument and every argument is a string (failing with an error otherwise,
covering both the zero-segment and the non-string-segment cases), and on a
list of string segments it stores exactly those segments verbatim. -/
theorem targetMake_ok_iff_and_verbatim (args : List JsArg) (segs : List String) :
    ((∃ t, Target.make args = Except.ok t) ↔
      args ≠ [] ∧ ∀ a ∈ args, a.isStr = true) ∧
    (segs ≠ [] →
      (Target.make (segs.map JsArg.str)).map Target.level = Except.ok segs) := by
  constructor
  · constructor
    · rintro ⟨t, ht⟩
      unfold Target.make at ht
      by_cases h0 : args.length = 0
      · rw [if_pos h0] at ht; exact Except.noConfusion ht
      rw [if_neg h0] at ht
      by_cases hf : 0 < (args.filter (fun a => !a.isStr)).length
      · rw [if_pos hf] at ht; exact Except.noConfusion ht
      refine ⟨fun hnil => h0 (by rw [hnil]; rfl), ?_⟩
      intro a ha
      have hfil : args.filter (fun a => !a.isStr) = [] :=
        List.length_eq_zero.mp (Nat.eq_zero_of_not_pos hf)
      have hnp := List.filter_eq_nil_iff.mp hfil a ha
      cases hb : a.isStr
      · exact absurd (by rw [hb]; rfl) hnp
      · rfl
    · rintro ⟨hne, hall⟩
      refine ⟨Target.ofSegments (args.map JsArg.strD), ?_⟩
      unfold Target.make
      rw [if_neg (fun h0 => hne (List.length_eq_zero.mp h0))]
      have hfil : args.filter (fun a => !a.isStr) = [] :=
        List.filter_eq_nil_iff.mpr (fun a ha => by rw [hall a ha]; simp)
      rw [hfil]
      simp
  · intro hne
    unfold Target.make
    rw [if_neg (fun h0 => hne (List.map_eq_nil_iff.mp (List.length_eq_zero.mp h0)))]
    have hfil : (segs.map JsArg.str).filter (fun a => !a.isStr) = [] :=
      List.filter_eq_nil_iff.mpr (by
        intro a ha
        obtain ⟨s, _, rfl⟩ := List.mem_map.mp ha
        simp [JsArg.isStr])
    rw [hfil]
    simp [Except.map, Target.ofSegments, List.map_map]
    show List.map (fun s => JsArg.strD (JsArg.str s)) segs = segs
    simp [JsArg.strD]

theorem targetMake_ok_iff_and_verbatim_witness :
    ((∃ t, Target.make [JsArg.str "a"] = Except.ok t) ↔
      ([JsArg.str "a"] ≠ [] ∧ ∀ a ∈ [JsArg.str "a"], a.isStr = true)) ∧
    (["a"] ≠ [] →
      (Target.make ((["a"] : List String).map JsArg.str)).map Target.level =
        Except.ok ["a"]) :=
  targetMake_ok_iff_and_verbatim [JsArg.str "a"] ["a"]

end RBACTree
